import Mathlib

/-!
Shallow embedding of the backtest/portfolio-simulation core of the
`high-intent-signals` repository (files `portfolio_simulator.py`,
`strict_portfolio_analyzer.py`, `monte_carlo_simulation.py`), together with
theorems settling the claims about it.

Modelling conventions:
* Calendar dates are modelled as `Int` day numbers.  The source stores dates
  as ISO `YYYY-MM-DD` strings and compares/sorts them lexicographically, which
  on ISO strings is exactly chronological order, and converts them to
  `datetime` for day arithmetic; both views are order-isomorphic to integer
  day numbers, so `≤` on `Int` models string comparison and `+`/`-` model
  `timedelta` arithmetic.
* Prices and money are `ℚ` (the claims under test are not float-sensitive).
* In `portfolio_simulator.py` the per-day dicts are read with
  `day.get('low', 0)` / `day.get('close')` followed by Python truthiness
  tests (`if low and low > 0`, `if exit_price:`); a missing or `None` field
  and the float `0.0` are all falsy there, so a bar field equal to `0`
  faithfully encodes "missing or falsy" for every code path embedded here.
* In `strict_portfolio_analyzer.py` the per-date dicts keep possibly-`None`
  fields, so those entries carry `Option ℚ` fields.
-/

/-- One daily OHLC record as consumed by `portfolio_simulator.py`
(`self.price_data[ticker]` is a list of dicts with these keys). -/
structure Bar where
  date : Int
  openPrice : ℚ
  high : ℚ
  low : ℚ
  close : ℚ
  deriving Repr, DecidableEq

/-- `StrategyConfig` from `portfolio_simulator.py` (the fields the embedded
functions read; `name`, `max_sector_pct` are presentation-only). -/
structure StrategyConfig where
  initial_capital : ℚ := 100000
  position_size_mode : String := "equal"
  max_position_pct : ℚ := 5/100
  fixed_dollar_amount : ℚ := 2000
  min_score : Int := 5
  holding_period_days : Int := 90
  stop_loss_pct : ℚ := 25/100
  trailing_stop_pct : ℚ := 0
  take_profit_pct : ℚ := 0
  max_positions : Int := 50
  max_score : Int := 99
  deriving Repr, DecidableEq

/-- Stable insertion into a date-ascending bar list: the new bar goes before
the first bar whose date is not strictly smaller, so bars already in the
list keep their relative order on date ties. -/
def insertBarByDate (b : Bar) : List Bar → List Bar
  | [] => [b]
  | x :: xs => if x.date < b.date then x :: insertBarByDate b xs else b :: x :: xs

/-- Stable ascending sort by date (the specification of Python's stable
`sorted(..., key=date)`), as an insertion sort. -/
def sortBarsByDate (l : List Bar) : List Bar :=
  l.foldr insertBarByDate []

/-- `PortfolioSimulator._get_price_data_for_period`: filter a ticker's bars to
`start_date <= date <= end_date` and sort ascending by date (Python's
`sorted` is a stable sort keyed on the date). -/
def getPriceDataForPeriod (data : List Bar) (startDate endDate : Int) : List Bar :=
  sortBarsByDate
    (data.filter (fun d => decide (startDate ≤ d.date) && decide (d.date ≤ endDate)))

/-- `PortfolioSimulator._get_close_on_date`: scan all bars, keeping the close
of the latest date `≤ target` (first occurrence wins on duplicate dates, as
the source compares with strict `>`); `none` when no bar is on or before the
target date. -/
def getCloseOnDate (data : List Bar) (target : Int) : Option ℚ :=
  (data.foldl
    (fun best d =>
      if d.date ≤ target then
        match best with
        | none => some (d.date, d.close)
        | some (bd, _) => if d.date > bd then some (d.date, d.close) else best
      else best)
    none).map (fun p => p.2)

/-- Decision returned by the exit check: the source returns a tuple
`(should_exit, reason, exit_price, exit_date)` with `(False, "", 0.0, "")`
for "still open". -/
inductive ExitDecision where
  | hold : ExitDecision
  | exit (reason : String) (price : ℚ) (date : Int) : ExitDecision
  deriving Repr, DecidableEq

/-- The recorded exit reason of a decision (empty for `hold`, matching the
source's `""`). -/
def ExitDecision.reason : ExitDecision → String
  | .hold => ""
  | .exit r _ _ => r

/-- The stop-loss trigger test of `_check_exit_conditions_real`
(`if low and low > 0` then `(low - entry_price)/entry_price <= -stop_loss_pct`). -/
def stopLossTrigger (entryPrice stopLossPct : ℚ) (b : Bar) : Bool :=
  decide (b.low ≠ 0) && decide (0 < b.low) &&
    decide ((b.low - entryPrice) / entryPrice ≤ -stopLossPct)

/-- The trailing-stop scan of `_check_exit_conditions_real`: walk the bars
carrying the running peak high; trigger when `(peak - low)/peak >=
trailing_stop_pct`, exiting at `peak * (1 - trailing_stop_pct)`. -/
def trailingScan (pct : ℚ) : ℚ → List Bar → Option (ℚ × Int)
  | _, [] => none
  | peak, b :: rest =>
    let peak1 := if b.high ≠ 0 ∧ b.high > peak then b.high else peak
    if b.low ≠ 0 ∧ peak1 > 0 ∧ (peak1 - b.low) / peak1 ≥ pct then
      some (peak1 * (1 - pct), b.date)
    else
      trailingScan pct peak1 rest

/-- The take-profit trigger test of `_check_exit_conditions_real`. -/
def takeProfitTrigger (entryPrice takeProfitPct : ℚ) (b : Bar) : Bool :=
  decide (b.high ≠ 0) && decide (0 < b.high) &&
    decide ((b.high - entryPrice) / entryPrice ≥ takeProfitPct)

/-- `PortfolioSimulator._check_exit_conditions_real`, for one open position:
`data` is the ticker's full bar list, `entryDate`/`entryPrice`/`currentPrice`
are the position's fields, `currentDate` the simulated date.  The four exit
rules are evaluated in the source's order (stop loss, trailing stop, take
profit, time), each returning immediately on a match; the time exit falls
back from the close on `entry + holding_period_days` to the latest close in
the period data to the position's `current_price`. -/
def checkExitConditionsReal (data : List Bar) (entryDate : Int) (entryPrice currentPrice : ℚ)
    (currentDate : Int) (cfg : StrategyConfig) : ExitDecision :=
  let daysHeld := currentDate - entryDate
  let priceData := getPriceDataForPeriod data entryDate currentDate
  if priceData.isEmpty then .hold
  else
    match (if cfg.stop_loss_pct > 0 then
             priceData.find? (stopLossTrigger entryPrice cfg.stop_loss_pct)
           else none) with
    | some b => .exit "stop_loss" (entryPrice * (1 - cfg.stop_loss_pct)) b.date
    | none =>
      match (if cfg.trailing_stop_pct > 0 then
               trailingScan cfg.trailing_stop_pct entryPrice priceData
             else none) with
      | some (price, d) => .exit "trailing_stop" price d
      | none =>
        match (if cfg.take_profit_pct > 0 then
                 priceData.find? (takeProfitTrigger entryPrice cfg.take_profit_pct)
               else none) with
        | some b => .exit "take_profit" (entryPrice * (1 + cfg.take_profit_pct)) b.date
        | none =>
          if daysHeld ≥ cfg.holding_period_days then
            let exitDate := entryDate + cfg.holding_period_days
            match getCloseOnDate data exitDate with
            | some c =>
              if c ≠ 0 then .exit "time" c exitDate
              else
                match priceData.reverse.find? (fun d => decide (d.close ≠ 0)) with
                | some d => .exit "time" d.close d.date
                | none =>
                  if currentPrice > 0 then .exit "time" currentPrice currentDate else .hold
            | none =>
              match priceData.reverse.find? (fun d => decide (d.close ≠ 0)) with
              | some d => .exit "time" d.close d.date
              | none =>
                if currentPrice > 0 then .exit "time" currentPrice currentDate else .hold
          else .hold

/-- The mode-selected target size of `_calculate_position_size` before any
capping (`fixed_dollar` / `score_weighted` / `equal` branches). -/
def modeComputedSize (cfg : StrategyConfig) (portfolioValue : ℚ) (score : Int) : ℚ :=
  if cfg.position_size_mode = "fixed_dollar" then cfg.fixed_dollar_amount
  else if cfg.position_size_mode = "score_weighted" then
    portfolioValue * (2/100) + max 0 ((score - 5 : Int) * (portfolioValue * (5/1000)))
  else
    portfolioValue * cfg.max_position_pct

/-- `PortfolioSimulator._calculate_position_size`: 0 when the position-slot
budget is exhausted, else the mode-computed size capped by 95% of cash and by
`max_position_pct` of portfolio value, with a rejected (`0`) result below the
$100 floor. -/
def calculatePositionSize (cfg : StrategyConfig) (cash portfolioValue : ℚ) (score : Int)
    (currentPositions : Int) : ℚ :=
  if currentPositions ≥ cfg.max_positions then 0
  else
    let size0 := modeComputedSize cfg portfolioValue score
    let size1 := min size0 (cash * (95/100))
    let size2 := min size1 (portfolioValue * cfg.max_position_pct)
    if size2 ≥ 100 then size2 else 0

/-- One iteration of the max-drawdown loop at the end of `run_simulation`
(state: running peak, maximum drawdown so far): raise the peak when the
value exceeds it, then fold in `(peak - value)/peak`. -/
def mddStep (st : ℚ × ℚ) (v : ℚ) : ℚ × ℚ :=
  let peak := if v > st.1 then v else st.1
  let dd := (peak - v) / peak
  (peak, if dd > st.2 then dd else st.2)

/-- The max-drawdown loop at the end of `run_simulation`: the running peak is
seeded with `config.initial_capital`, and each equity-curve value updates the
peak and the maximum of `(peak - value)/peak`. -/
def maxDrawdownCalc (initialCapital : ℚ) (curve : List ℚ) : ℚ :=
  (curve.foldl mddStep (initialCapital, 0)).2

/-- A closed position, restricted to the field the trade statistics read. -/
structure ClosedPos where
  pnl : ℚ
  deriving Repr, DecidableEq

/-- A profit factor as the source can produce it: a finite float or
`float('inf')`. -/
inductive ProfitFactor where
  | finite (q : ℚ) : ProfitFactor
  | infinite : ProfitFactor
  deriving Repr, DecidableEq

/-- The profit-factor computation of `run_simulation`:
`total_wins = sum(p.pnl for winners) if winners else 0`,
`total_losses = abs(sum(p.pnl for losers)) if losers else 1`,
`profit_factor = total_wins / total_losses if total_losses > 0 else inf`,
where winners have `pnl > 0` and losers `pnl <= 0`. -/
def profitFactorOf (closed : List ClosedPos) : ProfitFactor :=
  let winners := closed.filter (fun p => decide (p.pnl > 0))
  let losers := closed.filter (fun p => decide (p.pnl ≤ 0))
  let totalWins : ℚ := if winners.isEmpty then 0 else (winners.map (·.pnl)).sum
  let totalLosses : ℚ := if losers.isEmpty then 1 else |(losers.map (·.pnl)).sum|
  if totalLosses > 0 then .finite (totalWins / totalLosses) else .infinite

/-- A per-date price record of `strict_portfolio_analyzer.py`
(`self.price_data[ticker][date]`); fields loaded with `day.get(...)` may be
`None`, hence `Option`.  Only `low` and `close` are read by the embedded
code paths. -/
structure StrictEntry where
  low : Option ℚ
  close : Option ℚ
  deriving Repr, DecidableEq

/-- One ticker's date-indexed price dict (unique keys; `List.lookup` models
dict lookup). -/
def TickerData := List (Int × StrictEntry)
  deriving Repr, DecidableEq

/-- The strict analyzer's `self.price_data`: ticker → date-indexed prices. -/
def StrictDb := List (String × TickerData)
  deriving Repr, DecidableEq

/-- Membership test used below for `date in self.price_data[ticker]`. -/
def TickerData.lookupDate (tdata : TickerData) (d : Int) : Option StrictEntry :=
  List.lookup d tdata

/-- Lookup of a ticker in the strict analyzer's price dict. -/
def StrictDb.lookupTicker (db : StrictDb) (t : String) : Option TickerData :=
  List.lookup t db

/-- The offset loop of `StrictPortfolioAnalyzer.get_close_within_days`:
for each offset `k, k+1, ...` while fuel remains, try `target + offset`
first, then `target - offset`; first date present in the dict wins. -/
def gcwdSearch (tdata : TickerData) (target : Int) : Nat → Nat → Option ℚ × Option Int
  | _, 0 => (none, none)
  | k, fuel + 1 =>
    match tdata.lookupDate (target + (k : Int)) with
    | some e => (e.close, some (target + (k : Int)))
    | none =>
      match tdata.lookupDate (target - (k : Int)) with
      | some e => (e.close, some (target - (k : Int)))
      | none => gcwdSearch tdata target (k + 1) fuel

/-- `StrictPortfolioAnalyzer.get_close_within_days`: `(None, None)` for an
unknown ticker; the exact date if present; otherwise the interleaved
`+1, -1, +2, -2, ...` search up to `maxDays`. -/
def getCloseWithinDays (db : StrictDb) (ticker : String) (targetDate : Int) (maxDays : Nat) :
    Option ℚ × Option Int :=
  match db.lookupTicker ticker with
  | none => (none, none)
  | some tdata =>
    match tdata.lookupDate targetDate with
    | some e => (e.close, some targetDate)
    | none => gcwdSearch tdata targetDate 1 maxDays

/-- Insertion into a descending `Int` list (for
`sorted(keys, reverse=True)`). -/
def insertIntDesc (d : Int) : List Int → List Int
  | [] => [d]
  | x :: xs => if d < x then x :: insertIntDesc d xs else d :: x :: xs

/-- Descending sort of a date list, as an insertion sort. -/
def sortIntDesc (l : List Int) : List Int :=
  l.foldr insertIntDesc []

/-- `StrictPortfolioAnalyzer.get_latest_price`: walk the ticker's dates in
descending order and return the first truthy close with its date. -/
def getLatestPrice (db : StrictDb) (ticker : String) : Option (ℚ × Int) :=
  match db.lookupTicker ticker with
  | none => none
  | some tdata =>
    (sortIntDesc (tdata.map (fun p => p.1))).findSome? (fun d =>
      match tdata.lookupDate d with
      | some e =>
        match e.close with
        | some c => if c ≠ 0 then some (c, d) else none
        | none => none
      | none => none)

/-- `StrictPortfolioAnalyzer.check_stop_loss_triggered`: walk every calendar
day from entry to exit (inclusive); on the first day present in the dict
whose `low` is truthy and `<= entry_price * (1 - stop_loss_pct)`, return
that date and the fixed stop price. -/
def checkStopLossTriggered (db : StrictDb) (ticker : String) (entryDate : Int) (entryPrice : ℚ)
    (exitDate : Int) (stopLossPct : ℚ) : Option (Int × ℚ) :=
  match db.lookupTicker ticker with
  | none => none
  | some tdata =>
    let stopPrice := entryPrice * (1 - stopLossPct)
    let numDays := if exitDate < entryDate then 0 else (exitDate - entryDate).toNat + 1
    (List.range numDays).findSome? (fun i =>
      let d := entryDate + (i : Int)
      match tdata.lookupDate d with
      | some e =>
        match e.low with
        | some l => if l ≠ 0 ∧ l ≤ stopPrice then some (d, stopPrice) else none
        | none => none
      | none => none)

/-- Days in `[startDate, endDate]` (inclusive) present in the ticker's price
dict — the `actual_days` counter of `has_sufficient_price_data`. -/
def countDaysWithData (tdata : TickerData) (startDate endDate : Int) : Nat :=
  (List.range ((endDate - startDate).toNat + 1)).countP
    (fun i => (tdata.lookupDate (startDate + (i : Int))).isSome)

/-- `StrictPortfolioAnalyzer.has_sufficient_price_data`: `False` for an
unknown ticker, `True` for a degenerate window, otherwise compare
`actual / max(total_days * 5/7, 1)` against `min_coverage`. -/
def hasSufficientPriceData (db : StrictDb) (ticker : String) (startDate endDate : Int)
    (minCoverage : ℚ) : Bool :=
  match db.lookupTicker ticker with
  | none => false
  | some tdata =>
    let totalDays := endDate - startDate
    if totalDays ≤ 0 then true
    else
      let expected : ℚ := (totalDays : ℚ) * 5 / 7
      let actual := countDaysWithData tdata startDate endDate
      decide ((actual : ℚ) / max expected 1 ≥ minCoverage)

/-- A signal record as read by the analyzers (`ticker`, `signal_date`,
`entry_date`, `entry_price`/`signal_price`, `score`); a missing date field is
`none` (the source's falsy `''` default), and the effective entry price
collapses `signal.get('entry_price', signal.get('signal_price', 0))` with
`0` encoding missing/falsy. -/
structure Signal where
  ticker : String
  signalDate : Option Int
  entryDate : Option Int
  entryPrice : ℚ
  score : Int
  deriving Repr, DecidableEq

/-- `signal.get('entry_date', signal.get('signal_date', ''))`. -/
def Signal.effEntryDate (s : Signal) : Option Int :=
  s.entryDate.orElse (fun _ => s.signalDate)

/-- A valid trade produced by `analyze_signals_strict`
(`StrictTradeResult`, the fields the loop fills). -/
structure StrictTrade where
  ticker : String
  score : Int
  entryDate : Int
  entryPrice : ℚ
  exitDate : Int
  exitPrice : ℚ
  daysHeld : Int
  returnPct : ℚ
  exitReason : String
  deriving Repr, DecidableEq

/-- Outcome of one iteration of the signal loop in `analyze_signals_strict`:
silently skipped (missing ticker/date, i.e. the loop's `continue` before any
bookkeeping), dropped into one of the two tracked buckets with the recorded
reason, or kept as a valid trade. -/
inductive SignalOutcome where
  | skipped : SignalOutcome
  | droppedNoEntry (ticker : String) (date : Int) (reason : String) : SignalOutcome
  | droppedCoverage (ticker : String) (entryDate exitDate effectiveEnd : Int)
      (reason : String) : SignalOutcome
  | trade (t : StrictTrade) : SignalOutcome
  deriving Repr, DecidableEq

/-- The body of the per-signal loop of
`StrictPortfolioAnalyzer.analyze_signals_strict` (after the score filter):
entry price within 5 days, entry-date adjustment, latest-price check,
coverage check at threshold `0.3`, then stop-loss / time / open exit.
Total: every branch yields an outcome; the two unreachable
`(some price, none)` shapes of `get_close_within_days` are mapped to
`skipped`. -/
def processSignal (db : StrictDb) (holdingDays : Int) (stopLossPct : ℚ)
    (s : Signal) : SignalOutcome :=
  if s.ticker = "" then .skipped
  else
    match s.effEntryDate with
    | none => .skipped
    | some ed0 =>
      match getCloseWithinDays db s.ticker ed0 5 with
      | (none, _) => .droppedNoEntry s.ticker ed0 "no_entry_price"
      | (some _, none) => .skipped
      | (some ep, some aed) =>
        let exitDate := aed + holdingDays
        match getLatestPrice db s.ticker with
        | none => .droppedNoEntry s.ticker aed "no_price_data"
        | some (latestPrice, latestDate) =>
          let effectiveEnd := min exitDate latestDate
          if ¬ hasSufficientPriceData db s.ticker aed effectiveEnd (3/10) then
            .droppedCoverage s.ticker aed exitDate effectiveEnd
              "insufficient_coverage_in_period"
          else
            match checkStopLossTriggered db s.ticker aed ep effectiveEnd stopLossPct with
            | some (stopDate, stopPrice) =>
              .trade { ticker := s.ticker, score := s.score, entryDate := aed,
                       entryPrice := ep, exitDate := stopDate, exitPrice := stopPrice,
                       daysHeld := stopDate - aed,
                       returnPct := (stopPrice - ep) / ep, exitReason := "stop_loss" }
            | none =>
              match getCloseWithinDays db s.ticker exitDate 5 with
              | (some xp, some xd) =>
                .trade { ticker := s.ticker, score := s.score, entryDate := aed,
                         entryPrice := ep, exitDate := xd, exitPrice := xp,
                         daysHeld := xd - aed,
                         returnPct := (xp - ep) / ep, exitReason := "time" }
              | (some _, none) => .skipped
              | (none, _) =>
                .trade { ticker := s.ticker, score := s.score, entryDate := aed,
                         entryPrice := ep, exitDate := latestDate, exitPrice := latestPrice,
                         daysHeld := latestDate - aed,
                         returnPct := (latestPrice - ep) / ep, exitReason := "open" }

/-- The bookkeeping produced by `analyze_signals_strict`: valid trades, the
two drop buckets (with the recorded drop reasons), and the reported
`total_dropped = len(dropped_no_entry_price) + len(dropped_no_price_coverage)`. -/
structure StrictRun where
  validTrades : List StrictTrade
  droppedNoEntry : List (String × Int × String)
  droppedCoverage : List (String × Int × Int × Int × String)
  droppedTotal : Nat
  deriving Repr, DecidableEq

/-- `StrictPortfolioAnalyzer.analyze_signals_strict`: score-filter the
signals, run the per-signal loop accumulating trades and the two drop
buckets in order, and report the drop counts. -/
def analyzeSignalsStrict (db : StrictDb) (holdingDays : Int) (stopLossPct : ℚ)
    (minScore maxScore : Int) (allSignals : List Signal) : StrictRun :=
  let signals := allSignals.filter
    (fun s => decide (minScore ≤ s.score) && decide (s.score ≤ maxScore))
  let acc := signals.foldl
    (fun (acc : List StrictTrade × List (String × Int × String) ×
          List (String × Int × Int × Int × String)) s =>
      match processSignal db holdingDays stopLossPct s with
      | .skipped => acc
      | .droppedNoEntry t d r => (acc.1, acc.2.1 ++ [(t, d, r)], acc.2.2)
      | .droppedCoverage t e x f r => (acc.1, acc.2.1, acc.2.2 ++ [(t, e, x, f, r)])
      | .trade tr => (acc.1 ++ [tr], acc.2.1, acc.2.2))
    ([], [], [])
  { validTrades := acc.1, droppedNoEntry := acc.2.1, droppedCoverage := acc.2.2,
    droppedTotal := acc.2.1.length + acc.2.2.length }

/-- The per-start-date signal filter of
`PortfolioSimulator.run_rolling_analysis` (line 964):
`s.get('signal_date', '') >= start_week`. -/
def rollingFilterSignals (signals : List Signal) (startWeek : Int) : List Signal :=
  signals.filter (fun s =>
    match s.signalDate with
    | some d => decide (startWeek ≤ d)
    | none => false)

/-- The per-start-date signal filter of
`monte_carlo_simulation.run_monte_carlo` (line 138):
`s.get('entry_date', s.get('signal_date', '')) >= start_date`. -/
def monteCarloFilterSignals (signals : List Signal) (startDate : Int) : List Signal :=
  signals.filter (fun s =>
    match s.effEntryDate with
    | some d => decide (startDate ≤ d)
    | none => false)

/-- The stop-loss scan of `_check_exit_conditions_real` in isolation: first
bar (in the given order) whose positive low has fallen `stop_loss_pct` below
entry, paired with the fixed stop exit price. -/
def defaultStopScan (bars : List Bar) (entryPrice stopLossPct : ℚ) : Option (Int × ℚ) :=
  (bars.find? (stopLossTrigger entryPrice stopLossPct)).map
    (fun b => (b.date, entryPrice * (1 - stopLossPct)))

/-- The per-day trigger test of
`StrictPortfolioAnalyzer.check_stop_loss_triggered`
(`if day_low and day_low <= stop_price`). -/
def strictStopTrigger (stopPrice : ℚ) (b : Bar) : Bool :=
  decide (b.low ≠ 0) && decide (b.low ≤ stopPrice)

/-- `check_stop_loss_triggered` evaluated over an explicit list of bars in
ascending date order (its day-by-day dict walk visits exactly the dated
entries in ascending order, skipping absent days): first bar whose truthy
low is at or below the fixed stop price, paired with that stop price. -/
def strictStopScan (bars : List Bar) (entryPrice stopLossPct : ℚ) : Option (Int × ℚ) :=
  let stopPrice := entryPrice * (1 - stopLossPct)
  (bars.find? (strictStopTrigger stopPrice)).map (fun b => (b.date, stopPrice))

/-- An open position of `portfolio_simulator.py` (`Position`; the
`signal_date` bookkeeping field is never read by the embedded paths). -/
structure SimPosition where
  entryDate : Int
  entryPrice : ℚ
  shares : Int
  costBasis : ℚ
  score : Int
  peakPrice : ℚ
  currentPrice : ℚ
  deriving Repr, DecidableEq

/-- The environment of one `run_simulation` call: the signal list and the
price cache (`self.price_data`, with an absent ticker modelled as `[]`,
which is exactly what `_get_price_data_for_period` and `_get_close_on_date`
yield for an unknown ticker). -/
structure SimEnv where
  signals : List Signal
  priceData : String → List Bar

/-- The mutable portfolio state of the `run_simulation` day loop: cash, the
ticker-keyed open-position dict (as an insertion-ordered association list),
and the closed-position ledger (only `pnl` is read downstream). -/
structure SimState where
  cash : ℚ
  positions : List (String × SimPosition)
  closed : List ClosedPos

/-- The `current_price` refresh on the still-open path of
`_check_exit_conditions_real` (lines 425-428): reached only when the period
data is non-empty and no exit rule fired; updates to the latest close on or
before the current date when that close is truthy. -/
def holdUpdatedPrice (data : List Bar) (entryDate : Int) (currentPrice : ℚ)
    (currentDate : Int) : ℚ :=
  if (getPriceDataForPeriod data entryDate currentDate).isEmpty then currentPrice
  else
    match getCloseOnDate data currentDate with
    | some c => if c ≠ 0 then c else currentPrice
    | none => currentPrice

/-- `datetime.weekday() == 4` under the day-number convention that day 0 is
a Monday. -/
def isFriday (d : Int) : Bool := d % 7 == 4

/-- `PortfolioSimulator._get_signals_for_week`: signals whose effective entry
date lies in the Monday-to-Friday week ending on `weekDate`. -/
def weekSignalsFor (signals : List Signal) (weekDate : Int) : List Signal :=
  signals.filter (fun s =>
    match s.effEntryDate with
    | some d => decide (weekDate - 4 ≤ d) && decide (d ≤ weekDate)
    | none => false)

/-- The body of the Friday entry loop of `run_simulation` (lines 639-694):
skip when the ticker already has an open position, when the score is outside
`[min_score, max_score]`, when the entry price is not a positive number
(`if not entry_price or entry_price <= 0`), when the computed size is not
positive, when the truncated share count is not positive, or when the cost
exceeds cash; otherwise debit cash and append the new position.  The
source's `signal.get('entry_date', '')` would later crash the exit check on
a missing entry date; the embedding totalizes that unreachable-for-valid-
feeds case with day 0. -/
def entryStep (cfg : StrategyConfig) (acc : ℚ × List (String × SimPosition)) (s : Signal) :
    ℚ × List (String × SimPosition) :=
  let cash := acc.1
  let positions := acc.2
  if s.ticker ∈ positions.map Prod.fst then acc
  else if s.score < cfg.min_score then acc
  else if s.score > cfg.max_score then acc
  else if s.entryPrice ≤ 0 then acc
  else
    let portfolioValue :=
      cash + (positions.map (fun tp => (tp.2.shares : ℚ) * tp.2.currentPrice)).sum
    let size := calculatePositionSize cfg cash portfolioValue s.score (positions.length : Int)
    if size ≤ 0 then acc
    else
      let shares : Int := (size / s.entryPrice).floor
      if shares ≤ 0 then acc
      else
        let cost := (shares : ℚ) * s.entryPrice
        if cost > cash then acc
        else
          (cash - cost,
           positions ++ [(s.ticker,
             { entryDate := s.entryDate.getD 0, entryPrice := s.entryPrice, shares := shares,
               costBasis := cost, score := s.score, peakPrice := s.entryPrice,
               currentPrice := s.entryPrice })])

/-- The per-position exit evaluation of step 1 of the `run_simulation` day
loop: each open position paired with its exit decision, with the
still-open-path `current_price` refresh applied. -/
def simDayChecked (env : SimEnv) (cfg : StrategyConfig) (st : SimState) (currentDate : Int) :
    List (String × SimPosition × ExitDecision) :=
  st.positions.map (fun tp =>
    let dec := checkExitConditionsReal (env.priceData tp.1) tp.2.entryDate tp.2.entryPrice
      tp.2.currentPrice currentDate cfg
    (tp.1,
     (match dec with
      | .hold =>
        { tp.2 with currentPrice :=
            holdUpdatedPrice (env.priceData tp.1) tp.2.entryDate tp.2.currentPrice currentDate }
      | .exit _ _ _ => tp.2),
     dec))

/-- The exit phase of one day of `run_simulation`: run the exit check on
every open position (with the still-open `current_price` refresh), then pop
the triggered ones, credit their proceeds, and record the closed trades.
Returns (cash after credits, surviving positions, new closed records). -/
def simDayExits (env : SimEnv) (cfg : StrategyConfig) (st : SimState) (currentDate : Int) :
    ℚ × List (String × SimPosition) × List ClosedPos :=
  let checked := simDayChecked env cfg st currentDate
  let exits : List (String × SimPosition × ℚ) := checked.filterMap (fun x =>
    match x.2.2 with
    | .exit _ pr _ => some (x.1, x.2.1, pr)
    | .hold => none)
  let closeKeys := exits.map (fun x => x.1)
  let cash1 := st.cash + (exits.map (fun x => (x.2.1.shares : ℚ) * x.2.2)).sum
  let closedNew := exits.map (fun x =>
    ClosedPos.mk ((x.2.1.shares : ℚ) * x.2.2 - x.2.1.costBasis))
  let positions1 := (checked.map (fun x => (x.1, x.2.1))).filter
    (fun tp => !(closeKeys.contains tp.1))
  (cash1, positions1, closedNew)

/-- The end-of-day mark-to-market of `run_simulation` (step 3 of the loop):
refresh every surviving position's `current_price` from the latest truthy
close on or before the current date. -/
def simDayMark (env : SimEnv) (currentDate : Int) (positions : List (String × SimPosition)) :
    List (String × SimPosition) :=
  positions.map (fun tp =>
    match getCloseOnDate (env.priceData tp.1) currentDate with
    | some c => if c ≠ 0 then (tp.1, { tp.2 with currentPrice := c }) else tp
    | none => tp)

/-- One iteration of the day loop of `run_simulation` (lines 591-712):
(1) run the exit check on every open position, close the triggered ones and
credit the proceeds; (2) on Fridays, run the weekly entry loop over that
week's signals; (3) mark every surviving position to market from the latest
truthy close. -/
def simDayStep (env : SimEnv) (cfg : StrategyConfig) (st : SimState) (currentDate : Int) :
    SimState :=
  let exitsPhase := simDayExits env cfg st currentDate
  let afterEntries :=
    if isFriday currentDate then
      (weekSignalsFor env.signals currentDate).foldl (entryStep cfg)
        (exitsPhase.1, exitsPhase.2.1)
    else (exitsPhase.1, exitsPhase.2.1)
  { cash := afterEntries.1, positions := simDayMark env currentDate afterEntries.2,
    closed := st.closed ++ exitsPhase.2.2 }

/-- The initial portfolio state of `run_simulation`: full initial capital,
no open positions, no closed positions. -/
def initSimState (cfg : StrategyConfig) : SimState :=
  { cash := cfg.initial_capital, positions := [], closed := [] }

/-- `n` iterations of the day loop starting at `startDate` (the loop
advances `current_date` by one day each pass). -/
def runSimDays (env : SimEnv) (cfg : StrategyConfig) (startDate : Int) : Nat → SimState
  | 0 => initSimState cfg
  | n + 1 => simDayStep env cfg (runSimDays env cfg startDate n) (startDate + (n : Int))

theorem mem_insertBarByDate {x b : Bar} {l : List Bar} :
    x ∈ insertBarByDate b l ↔ x = b ∨ x ∈ l := by
  induction l with
  | nil => simp [insertBarByDate]
  | cons y ys ih =>
    simp only [insertBarByDate]
    split
    · simp only [List.mem_cons, ih]
      tauto
    · simp only [List.mem_cons]

theorem pairwise_insertBarByDate {b : Bar} {l : List Bar}
    (h : l.Pairwise (fun a c => a.date ≤ c.date)) :
    (insertBarByDate b l).Pairwise (fun a c => a.date ≤ c.date) := by
  induction l with
  | nil => simp [insertBarByDate]
  | cons y ys ih =>
    rcases List.pairwise_cons.mp h with ⟨hy, hys⟩
    simp only [insertBarByDate]
    split
    · refine List.Pairwise.cons ?_ (ih hys)
      intro z hz
      rcases mem_insertBarByDate.mp hz with rfl | hz1
      · omega
      · exact hy z hz1
    · refine List.Pairwise.cons ?_ (List.Pairwise.cons hy hys)
      intro z hz
      rcases List.mem_cons.mp hz with rfl | hz1
      · omega
      · have := hy z hz1
        omega

theorem mem_sortBarsByDate {x : Bar} {l : List Bar} :
    x ∈ sortBarsByDate l ↔ x ∈ l := by
  induction l with
  | nil => simp [sortBarsByDate]
  | cons y ys ih =>
    show x ∈ insertBarByDate y (sortBarsByDate ys) ↔ _
    rw [mem_insertBarByDate]
    simp [ih]

theorem pairwise_sortBarsByDate (l : List Bar) :
    (sortBarsByDate l).Pairwise (fun a c => a.date ≤ c.date) := by
  induction l with
  | nil => simp [sortBarsByDate]
  | cons y ys ih => exact pairwise_insertBarByDate ih

theorem mem_getPriceDataForPeriod {x : Bar} {data : List Bar} {s e : Int} :
    x ∈ getPriceDataForPeriod data s e ↔ x ∈ data ∧ s ≤ x.date ∧ x.date ≤ e := by
  rw [getPriceDataForPeriod, mem_sortBarsByDate, List.mem_filter]
  simp

theorem find?_min_date {p : Bar → Bool} {l : List Bar}
    (hs : l.Pairwise (fun a c => a.date ≤ c.date)) {b : Bar}
    (hf : l.find? p = some b) : ∀ x ∈ l, p x = true → b.date ≤ x.date := by
  induction l with
  | nil => simp at hf
  | cons y ys ih =>
    rcases List.pairwise_cons.mp hs with ⟨hy, hys⟩
    by_cases hp : p y
    · rw [List.find?_cons_of_pos _ hp] at hf
      obtain rfl : y = b := by injection hf
      intro x hx _
      rcases List.mem_cons.mp hx with rfl | hx1
      · exact le_refl _
      · exact hy x hx1
    · rw [List.find?_cons_of_neg _ (by simpa using hp)] at hf
      intro x hx hpx
      rcases List.mem_cons.mp hx with rfl | hx1
      · exact absurd hpx hp
      · exact ih hys hf x hx1 hpx

/-- C1: if on an evaluation date both a stop-loss breach (some bar's low in
the entry-to-now window is positive and has fallen `stop_loss_pct` below the
entry price, with `stop_loss_pct > 0`) and the time-exit condition
(`days held >= holding_period_days`) are satisfied, the exit check of
`_check_exit_conditions_real` records exit reason `stop_loss`, never `time`:
the stop-loss rule is evaluated first in the fixed precedence order and
returns immediately. -/
theorem c1_stop_loss_precedes_time_exit
    (data : List Bar) (entryDate : Int) (entryPrice currentPrice : ℚ) (currentDate : Int)
    (cfg : StrategyConfig)
    (hstop : 0 < cfg.stop_loss_pct)
    (hbreach : ∃ b ∈ getPriceDataForPeriod data entryDate currentDate,
      0 < b.low ∧ (b.low - entryPrice) / entryPrice ≤ -cfg.stop_loss_pct)
    (_htime : currentDate - entryDate ≥ cfg.holding_period_days) :
    (checkExitConditionsReal data entryDate entryPrice currentPrice currentDate cfg).reason
      = "stop_loss" := by
  obtain ⟨b, hbmem, hblow, hbcond⟩ := hbreach
  have hne : (getPriceDataForPeriod data entryDate currentDate).isEmpty = false := by
    rcases h : getPriceDataForPeriod data entryDate currentDate with _ | ⟨x, xs⟩
    · rw [h] at hbmem; simp at hbmem
    · rfl
  have hfind : ∃ b0, (getPriceDataForPeriod data entryDate currentDate).find?
      (stopLossTrigger entryPrice cfg.stop_loss_pct) = some b0 := by
    cases hf : (getPriceDataForPeriod data entryDate currentDate).find?
        (stopLossTrigger entryPrice cfg.stop_loss_pct) with
    | none =>
      exact absurd (by
        simp only [stopLossTrigger, Bool.and_eq_true, decide_eq_true_eq]
        exact ⟨⟨ne_of_gt hblow, hblow⟩, hbcond⟩)
        (List.find?_eq_none.mp hf b hbmem)
    | some b0 => exact ⟨b0, rfl⟩
  obtain ⟨b0, hb0⟩ := hfind
  unfold checkExitConditionsReal
  simp only [hne, Bool.false_eq_true, if_false, if_pos hstop, hb0, ExitDecision.reason]

/-- Witness for C1 at a concrete input: entry at 100 on day 0, a bar on day 5
with low 74, stop-loss 25%, holding period 90 days, evaluated on day 90 —
both the breach and the time condition hold and the reason is `stop_loss`. -/
theorem c1_stop_loss_precedes_time_exit_witness :
    (0 < ({ stop_loss_pct := 1/4, holding_period_days := 90 } : StrategyConfig).stop_loss_pct) ∧
    (∃ b ∈ getPriceDataForPeriod [⟨5, 0, 0, 74, 74⟩] 0 90,
      0 < b.low ∧ (b.low - 100) / 100 ≤
        -({ stop_loss_pct := 1/4, holding_period_days := 90 } : StrategyConfig).stop_loss_pct) ∧
    (checkExitConditionsReal [⟨5, 0, 0, 74, 74⟩] 0 100 0 90
      { stop_loss_pct := 1/4, holding_period_days := 90 }).reason = "stop_loss" :=
  ⟨by show (0:ℚ) < 1/4; norm_num,
    ⟨⟨5, 0, 0, 74, 74⟩, mem_getPriceDataForPeriod.mpr ⟨by simp, by decide, by decide⟩,
      by show (0:ℚ) < 74; norm_num,
      by show ((74:ℚ) - 100) / 100 ≤ -(1/4); norm_num⟩,
    c1_stop_loss_precedes_time_exit [⟨5, 0, 0, 74, 74⟩] 0 100 0 90
      { stop_loss_pct := 1/4, holding_period_days := 90 }
      (by show (0:ℚ) < 1/4; norm_num)
      ⟨⟨5, 0, 0, 74, 74⟩, mem_getPriceDataForPeriod.mpr ⟨by simp, by decide, by decide⟩,
        by show (0:ℚ) < 74; norm_num,
        by show ((74:ℚ) - 100) / 100 ≤ -(1/4); norm_num⟩
      (by decide)⟩

theorem pairwise_getPriceDataForPeriod (data : List Bar) (s e : Int) :
    (getPriceDataForPeriod data s e).Pairwise (fun a c => a.date ≤ c.date) :=
  pairwise_sortBarsByDate _

/-- C2: when `stop_loss_pct > 0` and at least one bar between the entry date
and the evaluation date has a positive low with
`(low - entry)/entry <= -stop_loss_pct`, `_check_exit_conditions_real`
triggers on the earliest such bar in ascending date order, returning reason
`stop_loss`, that bar's date as the exit date, and exit price exactly
`entry_price * (1 - stop_loss_pct)` rather than the day's actual low
(at entry 100, stop 25%, low 74 the price is exactly 75, see the witness). -/
theorem c2_stop_loss_first_bar_fixed_price
    (data : List Bar) (entryDate : Int) (entryPrice currentPrice : ℚ) (currentDate : Int)
    (cfg : StrategyConfig)
    (hstop : 0 < cfg.stop_loss_pct)
    (hbreach : ∃ b ∈ getPriceDataForPeriod data entryDate currentDate,
      0 < b.low ∧ (b.low - entryPrice) / entryPrice ≤ -cfg.stop_loss_pct) :
    ∃ b ∈ getPriceDataForPeriod data entryDate currentDate,
      0 < b.low ∧ (b.low - entryPrice) / entryPrice ≤ -cfg.stop_loss_pct ∧
      entryDate ≤ b.date ∧ b.date ≤ currentDate ∧
      (∀ x ∈ getPriceDataForPeriod data entryDate currentDate,
        0 < x.low → (x.low - entryPrice) / entryPrice ≤ -cfg.stop_loss_pct →
        b.date ≤ x.date) ∧
      checkExitConditionsReal data entryDate entryPrice currentPrice currentDate cfg
        = .exit "stop_loss" (entryPrice * (1 - cfg.stop_loss_pct)) b.date := by
  obtain ⟨b, hbmem, hblow, hbcond⟩ := hbreach
  have hne : (getPriceDataForPeriod data entryDate currentDate).isEmpty = false := by
    rcases h : getPriceDataForPeriod data entryDate currentDate with _ | ⟨x, xs⟩
    · rw [h] at hbmem; simp at hbmem
    · rfl
  have hfind : ∃ b0, (getPriceDataForPeriod data entryDate currentDate).find?
      (stopLossTrigger entryPrice cfg.stop_loss_pct) = some b0 := by
    cases hf : (getPriceDataForPeriod data entryDate currentDate).find?
        (stopLossTrigger entryPrice cfg.stop_loss_pct) with
    | none =>
      exact absurd (by
        simp only [stopLossTrigger, Bool.and_eq_true, decide_eq_true_eq]
        exact ⟨⟨ne_of_gt hblow, hblow⟩, hbcond⟩)
        (List.find?_eq_none.mp hf b hbmem)
    | some b0 => exact ⟨b0, rfl⟩
  obtain ⟨b0, hb0⟩ := hfind
  have hb0mem := List.mem_of_find?_eq_some hb0
  have hb0trig := List.find?_some hb0
  simp only [stopLossTrigger, Bool.and_eq_true, decide_eq_true_eq] at hb0trig
  obtain ⟨⟨-, hb0low⟩, hb0cond⟩ := hb0trig
  have hbounds := mem_getPriceDataForPeriod.mp hb0mem
  refine ⟨b0, hb0mem, hb0low, hb0cond, hbounds.2.1, hbounds.2.2, ?_, ?_⟩
  · intro x hx hxlow hxcond
    exact find?_min_date (pairwise_getPriceDataForPeriod data entryDate currentDate) hb0 x hx
      (by simp only [stopLossTrigger, Bool.and_eq_true, decide_eq_true_eq]
          exact ⟨⟨ne_of_gt hxlow, hxlow⟩, hxcond⟩)
  · unfold checkExitConditionsReal
    simp only [hne, Bool.false_eq_true, if_false, if_pos hstop, hb0]

/-- Witness for C2 at the spec's Scenario 1 numbers: entry 100, stop-loss
25%, day-5 low 74 — the breach exists, the check exits as `stop_loss` at
price `100 * (1 - 1/4)`, and that price is exactly 75. -/
theorem c2_stop_loss_first_bar_fixed_price_witness :
    (∃ b ∈ getPriceDataForPeriod [⟨5, 0, 0, 74, 74⟩] 0 90,
      0 < b.low ∧ (b.low - 100) / 100 ≤
        -({ stop_loss_pct := 1/4, holding_period_days := 90 } : StrategyConfig).stop_loss_pct) ∧
    (∃ b ∈ getPriceDataForPeriod [⟨5, 0, 0, 74, 74⟩] 0 90,
      0 < b.low ∧ (b.low - 100) / 100 ≤
        -({ stop_loss_pct := 1/4, holding_period_days := 90 } : StrategyConfig).stop_loss_pct ∧
      (0:Int) ≤ b.date ∧ b.date ≤ 90 ∧
      (∀ x ∈ getPriceDataForPeriod [⟨5, 0, 0, 74, 74⟩] 0 90,
        0 < x.low → (x.low - 100) / 100 ≤
          -({ stop_loss_pct := 1/4, holding_period_days := 90 } : StrategyConfig).stop_loss_pct →
        b.date ≤ x.date) ∧
      checkExitConditionsReal [⟨5, 0, 0, 74, 74⟩] 0 100 0 90
        { stop_loss_pct := 1/4, holding_period_days := 90 }
        = .exit "stop_loss" (100 * (1 - 1/4)) b.date) ∧
    (100 * (1 - (1/4 : ℚ)) = 75) :=
  ⟨⟨⟨5, 0, 0, 74, 74⟩, mem_getPriceDataForPeriod.mpr ⟨by simp, by decide, by decide⟩,
      by show (0:ℚ) < 74; norm_num,
      by show ((74:ℚ) - 100) / 100 ≤ -(1/4); norm_num⟩,
    c2_stop_loss_first_bar_fixed_price [⟨5, 0, 0, 74, 74⟩] 0 100 0 90
      { stop_loss_pct := 1/4, holding_period_days := 90 }
      (by show (0:ℚ) < 1/4; norm_num)
      ⟨⟨5, 0, 0, 74, 74⟩, mem_getPriceDataForPeriod.mpr ⟨by simp, by decide, by decide⟩,
        by show (0:ℚ) < 74; norm_num,
        by show ((74:ℚ) - 100) / 100 ≤ -(1/4); norm_num⟩,
    by norm_num⟩

/-- C7: when the open-position count is below `max_positions`, the computed
position size equals the minimum of the mode-computed size, 95% of available
cash, and `max_position_pct` of portfolio value when that minimum is at
least the $100 floor, and `0` (entry rejected) when it is below the floor;
and in `equal` mode with `max_position_pct = 0.04` and a portfolio value of
100000 the mode-computed size before capping is 4000. -/
theorem c7_position_size_caps_and_floor
    (cfg : StrategyConfig) (cash portfolioValue : ℚ) (score : Int) (currentPositions : Int)
    (hslots : currentPositions < cfg.max_positions) :
    (calculatePositionSize cfg cash portfolioValue score currentPositions =
      if 100 ≤ min (modeComputedSize cfg portfolioValue score)
          (min (cash * (95/100)) (portfolioValue * cfg.max_position_pct)) then
        min (modeComputedSize cfg portfolioValue score)
          (min (cash * (95/100)) (portfolioValue * cfg.max_position_pct))
      else 0) ∧
    (cfg.position_size_mode = "equal" → cfg.max_position_pct = 4/100 →
      portfolioValue = 100000 → modeComputedSize cfg portfolioValue score = 4000) := by
  constructor
  · unfold calculatePositionSize
    rw [if_neg (not_le.mpr hslots)]
    simp only [ge_iff_le, min_assoc]
  · intro h1 h2 h3
    rw [modeComputedSize, h3, h2, h1]
    rw [if_neg (by decide : ¬("equal" = "fixed_dollar")),
        if_neg (by decide : ¬("equal" = "score_weighted"))]
    norm_num

/-- Witness for C7: `equal` mode, `max_position_pct = 0.04`, cash and
portfolio value 100000, no open positions — the mode size is 4000 and the
final size is the capped minimum (here at least the $100 floor). -/
theorem c7_position_size_caps_and_floor_witness :
    ((0:Int) <
      ({ position_size_mode := "equal", max_position_pct := 4/100 } : StrategyConfig).max_positions) ∧
    (calculatePositionSize { position_size_mode := "equal", max_position_pct := 4/100 }
        100000 100000 5 0 =
      if 100 ≤ min (modeComputedSize { position_size_mode := "equal", max_position_pct := 4/100 }
            100000 5)
          (min (100000 * (95/100))
            (100000 * ({ position_size_mode := "equal", max_position_pct := 4/100 }
              : StrategyConfig).max_position_pct)) then
        min (modeComputedSize { position_size_mode := "equal", max_position_pct := 4/100 }
            100000 5)
          (min (100000 * (95/100))
            (100000 * ({ position_size_mode := "equal", max_position_pct := 4/100 }
              : StrategyConfig).max_position_pct))
      else 0) ∧
    (modeComputedSize { position_size_mode := "equal", max_position_pct := 4/100 } 100000 5
      = 4000) ∧
    (calculatePositionSize { position_size_mode := "equal", max_position_pct := 4/100 }
      100000 100000 5 0 = 4000) :=
  ⟨by show (0:Int) < 50; decide,
    (c7_position_size_caps_and_floor { position_size_mode := "equal", max_position_pct := 4/100 }
      100000 100000 5 0 (by show (0:Int) < 50; decide)).1,
    (c7_position_size_caps_and_floor { position_size_mode := "equal", max_position_pct := 4/100 }
      100000 100000 5 0 (by show (0:Int) < 50; decide)).2 rfl rfl rfl,
    by
      unfold calculatePositionSize modeComputedSize
      rw [if_neg (by decide : ¬((0:Int) ≥
        ({ position_size_mode := "equal", max_position_pct := 4/100 }
          : StrategyConfig).max_positions))]
      rw [if_neg (by decide :
            ¬(({ position_size_mode := "equal", max_position_pct := 4/100 }
              : StrategyConfig).position_size_mode = "fixed_dollar")),
          if_neg (by decide :
            ¬(({ position_size_mode := "equal", max_position_pct := 4/100 }
              : StrategyConfig).position_size_mode = "score_weighted"))]
      norm_num [min_def]⟩

/-- C3 counterexample: a completed run whose single closed position has
`pnl = 5` (all trades winning, no losers) reports profit factor
`finite 5` — the source substitutes `total_losses = 1` when there are no
losers, so the result is the ordinary finite sum of winning pnl, not the
infinity sentinel (and `monte_carlo_simulation.save_results` serializes the
field unchanged). -/
theorem c3_profit_factor_counterexample :
    profitFactorOf [⟨5⟩] = .finite 5 ∧ profitFactorOf [⟨5⟩] ≠ .infinite := by
  have h : profitFactorOf [⟨5⟩] = .finite 5 := by
    unfold profitFactorOf
    rw [List.filter_cons, List.filter_cons]
    norm_num
  exact ⟨h, by rw [h]; intro hc; exact ProfitFactor.noConfusion hc⟩

/-- C3 (amended): for a non-empty closed-position list in which every trade
has `pnl > 0`, the computation does not crash and does not produce NaN, but
it also does not produce the infinity sentinel: `total_losses` is
substituted with `1`, so `profit_factor` is the ordinary finite value
`Σ(winning pnl)`, and that finite number is what the serialized output
carries (the `float('inf')` branch is reachable only when losers exist and
their pnl sums to zero). -/
theorem c3_profit_factor_all_winners_finite
    (closed : List ClosedPos) (hne : closed ≠ []) (hwin : ∀ p ∈ closed, 0 < p.pnl) :
    profitFactorOf closed = .finite ((closed.map (fun p => p.pnl)).sum) := by
  unfold profitFactorOf
  have h1 : closed.filter (fun p => decide (p.pnl > 0)) = closed :=
    List.filter_eq_self.mpr (fun a ha => by simpa using hwin a ha)
  have h2 : closed.filter (fun p => decide (p.pnl ≤ 0)) = [] := by
    rw [List.filter_eq_nil_iff]
    intro a ha
    simpa using not_le.mpr (hwin a ha)
  rw [h1, h2]
  have h3 : closed.isEmpty = false := by
    cases closed with
    | nil => exact absurd rfl hne
    | cons a l => rfl
  simp only [h3, List.isEmpty_nil, if_true, if_false, Bool.false_eq_true]
  norm_num

/-- Witness for C3's amended claim at the counterexample input. -/
theorem c3_profit_factor_all_winners_finite_witness :
    (([⟨5⟩] : List ClosedPos) ≠ [] ∧ ∀ p ∈ ([⟨5⟩] : List ClosedPos), 0 < p.pnl) ∧
    profitFactorOf [⟨5⟩] = .finite ((([⟨5⟩] : List ClosedPos).map (fun p => p.pnl)).sum) :=
  ⟨⟨by simp, by intro p hp; rw [List.mem_singleton] at hp; subst hp; show (0:ℚ) < 5; norm_num⟩,
    c3_profit_factor_all_winners_finite [⟨5⟩] (by simp)
      (by intro p hp; rw [List.mem_singleton] at hp; subst hp; show (0:ℚ) < 5; norm_num)⟩

theorem mddStep_fst_mono (st : ℚ × ℚ) (v : ℚ) : st.1 ≤ (mddStep st v).1 := by
  unfold mddStep
  dsimp only
  split
  case isTrue h => exact le_of_lt h
  case isFalse h => exact le_refl _

theorem mddStep_snd_mono (st : ℚ × ℚ) (v : ℚ) : st.2 ≤ (mddStep st v).2 := by
  unfold mddStep
  dsimp only
  set peak := if v > st.1 then v else st.1 with hpk
  split
  case isTrue h => exact le_of_lt h
  case isFalse h => exact le_refl _

theorem mdd_foldl_snd_mono (curve : List ℚ) (st : ℚ × ℚ) :
    st.2 ≤ (curve.foldl mddStep st).2 := by
  induction curve generalizing st with
  | nil => exact le_refl _
  | cons v rest ih => exact le_trans (mddStep_snd_mono st v) (ih (mddStep st v))

/-- C4 counterexample: with initial capital 100 and the one-point equity
curve `[90]` — a curve that never declines below any of its own earlier
values — the reported max drawdown is `1/10`, not `0`, while with initial
capital 90 the same curve reports `0`: the running peak is seeded with the
configured initial capital, so the result is not the maximum drawdown of
the curve against its own running peak and is not independent of the
initial capital. -/
theorem c4_max_drawdown_counterexample :
    maxDrawdownCalc 100 [90] = 1/10 ∧ maxDrawdownCalc 90 [90] = 0 ∧ (1/10 : ℚ) ≠ 0 := by
  refine ⟨?_, ?_, by norm_num⟩
  · unfold maxDrawdownCalc mddStep
    norm_num
  · unfold maxDrawdownCalc mddStep
    norm_num

/-- C4 (amended): the running peak of the max-drawdown loop is seeded with
the configured initial capital, not with the equity curve itself: for
positive initial capital, a nondecreasing curve that never goes below the
initial capital reports 0, while any curve point strictly below the initial
capital forces a strictly positive reported drawdown (so the result depends
on the initial capital). -/
theorem c4_max_drawdown_seeded_with_initial_capital
    (init : ℚ) (curve : List ℚ) (hpos : 0 < init) :
    (curve.Chain' (· ≤ ·) → (∀ v ∈ curve, init ≤ v) → maxDrawdownCalc init curve = 0) ∧
    (∀ v ∈ curve, v < init → 0 < maxDrawdownCalc init curve) := by
  constructor
  · intro hchain hge
    rw [List.chain'_iff_pairwise] at hchain
    unfold maxDrawdownCalc
    have key : ∀ (l : List ℚ) (peak : ℚ), 0 < peak → l.Pairwise (· ≤ ·) →
        (∀ v ∈ l, peak ≤ v) → (l.foldl mddStep (peak, 0)).2 = 0 := by
      intro l
      induction l with
      | nil => intro peak _ _ _; rfl
      | cons v rest ih =>
        intro peak hpk hpw hub
        rcases List.pairwise_cons.mp hpw with ⟨hv, hrest⟩
        have hpeakv : peak ≤ v := hub v (List.mem_cons_self v rest)
        have hstep : mddStep (peak, 0) v = (v, 0) := by
          unfold mddStep
          dsimp only
          rcases lt_or_eq_of_le hpeakv with h | h
          · rw [if_pos h, sub_self, zero_div, if_neg (lt_irrefl 0)]
          · rw [if_neg (by rw [h]; exact lt_irrefl v), h, sub_self, zero_div,
              if_neg (lt_irrefl 0)]
        rw [List.foldl_cons, hstep]
        exact ih v (lt_of_lt_of_le hpk hpeakv) hrest hv
    exact key curve init hpos hchain hge
  · intro v hv hvlt
    unfold maxDrawdownCalc
    have key : ∀ (l : List ℚ) (peak dd0 : ℚ), init ≤ peak → v ∈ l → v < init →
        0 ≤ dd0 → 0 < (l.foldl mddStep (peak, dd0)).2 := by
      intro l
      induction l with
      | nil => intro peak dd0 _ hmem; exact absurd hmem (List.not_mem_nil v)
      | cons w rest ih =>
        intro peak dd0 hinitpk hmem hvi hdd0
        rcases List.mem_cons.mp hmem with rfl | hmem1
        · have hwpk : ¬ (v > peak) := not_lt.mpr (le_of_lt (lt_of_lt_of_le hvi hinitpk))
          have hdd : 0 < (peak - v) / peak :=
            div_pos (sub_pos.mpr (lt_of_lt_of_le hvi hinitpk))
              (lt_of_lt_of_le hpos hinitpk)
          have hstep2 : 0 < (mddStep (peak, dd0) v).2 := by
            unfold mddStep
            dsimp only
            rw [if_neg hwpk]
            split
            case isTrue h => exact hdd
            case isFalse h => exact lt_of_lt_of_le hdd (not_lt.mp h)
          calc 0 < (mddStep (peak, dd0) v).2 := hstep2
            _ ≤ (rest.foldl mddStep (mddStep (peak, dd0) v)).2 :=
              mdd_foldl_snd_mono rest (mddStep (peak, dd0) v)
        · exact ih (mddStep (peak, dd0) w).1 (mddStep (peak, dd0) w).2
            (le_trans hinitpk (mddStep_fst_mono (peak, dd0) w)) hmem1 hvi
            (le_trans hdd0 (mddStep_snd_mono (peak, dd0) w))
    exact key curve init 0 (le_refl init) hv hvlt (le_refl 0)

/-- Witness for C4's amended claim: initial capital 100 with the
nondecreasing curve `[100, 110]` reports 0, and with the curve `[90]`
(a point below the initial capital) reports a strictly positive drawdown. -/
theorem c4_max_drawdown_seeded_with_initial_capital_witness :
    ((0:ℚ) < 100) ∧
    (maxDrawdownCalc 100 [100, 110] = 0) ∧ (0 < maxDrawdownCalc 100 [90]) :=
  ⟨by norm_num,
    (c4_max_drawdown_seeded_with_initial_capital 100 [100, 110] (by norm_num)).1
      (by constructor <;> norm_num)
      (by intro v hv; rcases List.mem_cons.mp hv with rfl | hv1;
          · norm_num
          · rw [List.mem_singleton] at hv1; subst hv1; norm_num),
    (c4_max_drawdown_seeded_with_initial_capital 100 [90] (by norm_num)).2 90
      (by simp) (by norm_num)⟩

/-- C5 counterexample: a signal with `signal_date = 5` and `entry_date = 7`,
at harness start date 6.  Its entry date is on or after the start date, so
the claim requires the rerun to consume it; but
`run_rolling_analysis` filters on `signal_date`, so its rerun excludes the
signal, while `run_monte_carlo` (filtering on `entry_date`) keeps it. -/
theorem c5_rolling_filter_counterexample :
    rollingFilterSignals
      [{ ticker := "A", signalDate := some 5, entryDate := some 7, entryPrice := 10,
         score := 5 }] 6 = [] ∧
    monteCarloFilterSignals
      [{ ticker := "A", signalDate := some 5, entryDate := some 7, entryPrice := 10,
         score := 5 }] 6 =
      [{ ticker := "A", signalDate := some 5, entryDate := some 7, entryPrice := 10,
         score := 5 }] ∧
    (6 : Int) ≤ 7 := by
  refine ⟨?_, ?_, by decide⟩
  · rw [rollingFilterSignals, List.filter_cons]
    norm_num
  · rw [monteCarloFilterSignals, List.filter_cons]
    simp [Signal.effEntryDate, Option.orElse]

/-- C5 (amended): the two robustness harnesses filter differently.
`run_monte_carlo` keeps exactly the signals whose effective entry date
(`entry_date`, falling back to `signal_date` when absent) is on or after
the start date; `run_rolling_analysis` keeps exactly the signals whose
`signal_date` is on or after the start week, so a signal whose signal date
precedes the start is excluded from that rerun even when its entry date is
on or after the start. -/
theorem c5_start_date_filters (signals : List Signal) (startDate : Int) (s : Signal) :
    (s ∈ monteCarloFilterSignals signals startDate ↔
      s ∈ signals ∧ ((∃ d, s.entryDate = some d ∧ startDate ≤ d) ∨
        (s.entryDate = none ∧ ∃ d, s.signalDate = some d ∧ startDate ≤ d))) ∧
    (s ∈ rollingFilterSignals signals startDate ↔
      s ∈ signals ∧ ∃ d, s.signalDate = some d ∧ startDate ≤ d) := by
  constructor
  · rw [monteCarloFilterSignals, List.mem_filter]
    rcases he : s.entryDate with _ | d
    · rcases hs : s.signalDate with _ | d2
      · simp [Signal.effEntryDate, he, hs, Option.orElse]
      · simp [Signal.effEntryDate, he, hs, Option.orElse]
    · simp [Signal.effEntryDate, he, Option.orElse]
  · rw [rollingFilterSignals, List.mem_filter]
    rcases hs : s.signalDate with _ | d
    · simp [hs]
    · simp [hs]

theorem find?_congr_on {α : Type} {p q : α → Bool} {l : List α}
    (h : ∀ x ∈ l, p x = q x) : l.find? p = l.find? q := by
  induction l with
  | nil => rfl
  | cons a as ih =>
    have ha := h a (List.mem_cons_self a as)
    by_cases hp : p a
    · rw [List.find?_cons_of_pos _ hp, List.find?_cons_of_pos _ (ha ▸ hp)]
    · rw [List.find?_cons_of_neg _ (by simpa using hp),
        List.find?_cons_of_neg _ (by rw [← ha]; simpa using hp)]
      exact ih (fun x hx => h x (List.mem_cons_of_mem a hx))

/-- C10: over the same bars in ascending date order, with a positive entry
price and positive lows, the default simulator's stop test
(`(low - entry)/entry <= -stop_loss_pct`, from
`_check_exit_conditions_real`) and the strict analyzer's stop test
(`low <= entry * (1 - stop_loss_pct)`, from `check_stop_loss_triggered`)
are equivalent under exact arithmetic: the two scans trigger on the same
first bar (or both never trigger) and return the same fixed exit price
`entry * (1 - stop_loss_pct)`. -/
theorem c10_stop_tests_equivalent
    (bars : List Bar) (entryPrice stopLossPct : ℚ)
    (hentry : 0 < entryPrice) (hlow : ∀ b ∈ bars, 0 < b.low) :
    defaultStopScan bars entryPrice stopLossPct = strictStopScan bars entryPrice stopLossPct := by
  unfold defaultStopScan strictStopScan
  have hfind : bars.find? (stopLossTrigger entryPrice stopLossPct)
      = bars.find? (strictStopTrigger (entryPrice * (1 - stopLossPct))) := by
    apply find?_congr_on
    intro b hb
    have hbl := hlow b hb
    simp only [stopLossTrigger, strictStopTrigger]
    rw [Bool.eq_iff_iff]
    simp only [Bool.and_eq_true, decide_eq_true_eq]
    constructor
    · rintro ⟨⟨hne, -⟩, hcond⟩
      refine ⟨hne, ?_⟩
      rw [div_le_iff₀ hentry] at hcond
      nlinarith
    · rintro ⟨hne, hcond⟩
      refine ⟨⟨hne, hbl⟩, ?_⟩
      rw [div_le_iff₀ hentry]
      nlinarith
  rw [hfind]

/-- Witness for C10: entry 100, stop 25%, one bar with low 74 — both scans
agree, and both trigger on that bar at the fixed price 75. -/
theorem c10_stop_tests_equivalent_witness :
    ((0:ℚ) < 100) ∧ (∀ b ∈ [(⟨5, 0, 0, 74, 74⟩ : Bar)], 0 < b.low) ∧
    (defaultStopScan [⟨5, 0, 0, 74, 74⟩] 100 (1/4)
      = strictStopScan [⟨5, 0, 0, 74, 74⟩] 100 (1/4)) ∧
    (defaultStopScan [⟨5, 0, 0, 74, 74⟩] 100 (1/4) = some (5, 75)) := by
  have hlow : ∀ b ∈ [(⟨5, 0, 0, 74, 74⟩ : Bar)], 0 < b.low := by
    intro b hb
    rw [List.mem_singleton] at hb
    subst hb
    show (0:ℚ) < 74
    norm_num
  refine ⟨by norm_num, hlow,
    c10_stop_tests_equivalent [⟨5, 0, 0, 74, 74⟩] 100 (1/4) (by norm_num) hlow, ?_⟩
  unfold defaultStopScan
  rw [List.find?_cons_of_pos _ (by
    simp only [stopLossTrigger, Bool.and_eq_true, decide_eq_true_eq]
    norm_num)]
  rw [Option.map_some']
  norm_num

theorem simDayChecked_keys (env : SimEnv) (cfg : StrategyConfig) (st : SimState) (d : Int) :
    (simDayChecked env cfg st d).map Prod.fst = st.positions.map Prod.fst := by
  unfold simDayChecked
  rw [List.map_map]
  exact List.map_congr_left (fun a _ => rfl)

theorem simDayExits_keys_nodup (env : SimEnv) (cfg : StrategyConfig) (st : SimState) (d : Int)
    (h : (st.positions.map Prod.fst).Nodup) :
    (((simDayExits env cfg st d).2.1).map Prod.fst).Nodup := by
  unfold simDayExits
  dsimp only
  refine List.Nodup.sublist (List.Sublist.map Prod.fst (List.filter_sublist _)) ?_
  rw [List.map_map]
  have heq : (simDayChecked env cfg st d).map (Prod.fst ∘ fun x => (x.1, x.2.1))
      = (simDayChecked env cfg st d).map Prod.fst :=
    List.map_congr_left (fun a _ => rfl)
  rw [heq, simDayChecked_keys]
  exact h

theorem entryStep_keys_nodup (cfg : StrategyConfig) (acc : ℚ × List (String × SimPosition))
    (s : Signal) (h : (acc.2.map Prod.fst).Nodup) :
    ((entryStep cfg acc s).2.map Prod.fst).Nodup := by
  unfold entryStep
  simp only []
  split
  case isTrue hc => exact h
  case isFalse hc =>
    split
    case isTrue _ => exact h
    case isFalse _ =>
      split
      case isTrue _ => exact h
      case isFalse _ =>
        split
        case isTrue _ => exact h
        case isFalse _ =>
          split
          case isTrue _ => exact h
          case isFalse _ =>
            split
            case isTrue _ => exact h
            case isFalse _ =>
              split
              case isTrue _ => exact h
              case isFalse _ =>
                rw [List.map_append, List.nodup_append]
                refine ⟨h, by simp, ?_⟩
                intro a ha hb
                simp only [List.map_cons, List.map_nil, List.mem_singleton] at hb
                subst hb
                exact hc ha

theorem foldl_entryStep_keys_nodup (cfg : StrategyConfig) (sigs : List Signal)
    (acc : ℚ × List (String × SimPosition)) (h : (acc.2.map Prod.fst).Nodup) :
    ((sigs.foldl (entryStep cfg) acc).2.map Prod.fst).Nodup := by
  induction sigs generalizing acc with
  | nil => exact h
  | cons s rest ih => exact ih _ (entryStep_keys_nodup cfg acc s h)

theorem simDayMark_keys (env : SimEnv) (d : Int) (positions : List (String × SimPosition)) :
    (simDayMark env d positions).map Prod.fst = positions.map Prod.fst := by
  unfold simDayMark
  rw [List.map_map]
  apply List.map_congr_left
  intro a _
  simp only [Function.comp_apply]
  rcases getCloseOnDate (env.priceData a.1) d with _ | c
  · rfl
  · dsimp only
    split <;> rfl

theorem simDayStep_keys_nodup (env : SimEnv) (cfg : StrategyConfig) (st : SimState) (d : Int)
    (h : (st.positions.map Prod.fst).Nodup) :
    ((simDayStep env cfg st d).positions.map Prod.fst).Nodup := by
  unfold simDayStep
  dsimp only
  rw [simDayMark_keys]
  split
  · exact foldl_entryStep_keys_nodup cfg _ _ (simDayExits_keys_nodup env cfg st d h)
  · exact simDayExits_keys_nodup env cfg st d h

/-- C9: at every step of the day-by-day simulation loop, the open-position
set never holds two positions for the same ticker — after any number of
day iterations the ticker keys of the position list are pairwise distinct.
The entry loop (`entryStep`) rejects a weekly candidate whose ticker is
already held, so a ticker can only be re-entered after its existing
position has been closed by the exit phase. -/
theorem c9_one_position_per_ticker (env : SimEnv) (cfg : StrategyConfig) (startDate : Int)
    (n : Nat) : ((runSimDays env cfg startDate n).positions.map Prod.fst).Nodup := by
  induction n with
  | zero => simp [runSimDays, initSimState]
  | succ n ih => exact simDayStep_keys_nodup env cfg _ _ ih

theorem gcwdSearch_succ (tdata : TickerData) (target : Int) (k fuel : Nat) :
    gcwdSearch tdata target k (fuel + 1) =
      match tdata.lookupDate (target + (k : Int)) with
      | some e => (e.close, some (target + (k : Int)))
      | none =>
        match tdata.lookupDate (target - (k : Int)) with
        | some e => (e.close, some (target - (k : Int)))
        | none => gcwdSearch tdata target (k + 1) fuel := rfl

theorem gcwdSearch_snd_none_iff (tdata : TickerData) (target : Int) :
    ∀ (fuel k : Nat), (gcwdSearch tdata target k fuel).2 = none ↔
      ∀ j : Nat, k ≤ j → j < k + fuel →
        tdata.lookupDate (target + (j : Int)) = none ∧
        tdata.lookupDate (target - (j : Int)) = none := by
  intro fuel
  induction fuel with
  | zero =>
    intro k
    constructor
    · intro _ j hj1 hj2
      exact absurd hj2 (by omega)
    · intro _
      rfl
  | succ fuel ih =>
    intro k
    rw [gcwdSearch_succ]
    cases h1 : tdata.lookupDate (target + (k : Int)) with
    | some e =>
      simp only []
      constructor
      · intro h
        exact absurd h (by simp)
      · intro hall
        exact absurd (hall k (le_refl k) (by omega)).1 (by rw [h1]; simp)
    | none =>
      cases h2 : tdata.lookupDate (target - (k : Int)) with
      | some e =>
        simp only []
        constructor
        · intro h
          exact absurd h (by simp)
        · intro hall
          exact absurd (hall k (le_refl k) (by omega)).2 (by rw [h2]; simp)
      | none =>
        simp only []
        rw [ih (k + 1)]
        constructor
        · intro hall j hj1 hj2
          rcases Nat.eq_or_lt_of_le hj1 with rfl | hlt
          · exact ⟨h1, h2⟩
          · exact hall j hlt (by omega)
        · intro hall j hj1 hj2
          exact hall j (by omega) (by omega)

theorem gcwdSearch_spec (tdata : TickerData) (target : Int) :
    ∀ (fuel k : Nat) (c : Option ℚ) (res : Int),
      gcwdSearch tdata target k fuel = (c, some res) →
      ∃ j : Nat, k ≤ j ∧ j < k + fuel ∧
        (res = target + (j : Int) ∨
          (res = target - (j : Int) ∧ tdata.lookupDate (target + (j : Int)) = none)) ∧
        (∃ e, tdata.lookupDate res = some e ∧ c = e.close) ∧
        (∀ j2 : Nat, k ≤ j2 → j2 < j →
          tdata.lookupDate (target + (j2 : Int)) = none ∧
          tdata.lookupDate (target - (j2 : Int)) = none) := by
  intro fuel
  induction fuel with
  | zero =>
    intro k c res h
    exact absurd (congrArg Prod.snd h) (by simp [gcwdSearch])
  | succ fuel ih =>
    intro k c res h
    rw [gcwdSearch_succ] at h
    cases h1 : tdata.lookupDate (target + (k : Int)) with
    | some e =>
      rw [h1] at h
      have hc : e.close = c := congrArg Prod.fst h
      have hres : target + (k : Int) = res := by
        have := congrArg Prod.snd h
        simpa using this
      refine ⟨k, le_refl k, by omega, Or.inl hres.symm, ⟨e, ?_, hc.symm⟩, ?_⟩
      · rw [← hres]; exact h1
      · intro j2 hj2a hj2b
        exact absurd hj2b (by omega)
    | none =>
      rw [h1] at h
      cases h2 : tdata.lookupDate (target - (k : Int)) with
      | some e =>
        rw [h2] at h
        have hc : e.close = c := congrArg Prod.fst h
        have hres : target - (k : Int) = res := by
          have := congrArg Prod.snd h
          simpa using this
        refine ⟨k, le_refl k, by omega, Or.inr ⟨hres.symm, h1⟩, ⟨e, ?_, hc.symm⟩, ?_⟩
        · rw [← hres]; exact h2
        · intro j2 hj2a hj2b
          exact absurd hj2b (by omega)
      | none =>
        rw [h2] at h
        obtain ⟨j, hj1, hj2, hdisj, hlook, hprefix⟩ := ih (k + 1) c res h
        refine ⟨j, by omega, by omega, hdisj, hlook, ?_⟩
        intro j2 hj2a hj2b
        rcases Nat.eq_or_lt_of_le hj2a with rfl | hlt
        · exact ⟨h1, h2⟩
        · exact hprefix j2 hlt hj2b

/-- C6 counterexample: ticker with data only on dates 9 and 13, queried at
date 10 with a 5-day window.  Date 13 lies in the forward window and has
data, yet `get_close_within_days` returns the close of the *backward* date
9: the search interleaves `+1, -1, +2, -2, ...`, so a strictly nearer
backward match beats a farther forward match — it does not exhaust the
forward window first. -/
theorem c6_close_within_window_counterexample :
    getCloseWithinDays [("X", [((9 : Int), ⟨none, some 1⟩), ((13 : Int), ⟨none, some 2⟩)])]
      "X" 10 5 = (some 1, some 9) ∧
    (9 : Int) < 10 ∧ (10 : Int) < 13 ∧ (13 : Int) ≤ 10 + 5 ∧
    (List.lookup (13 : Int)
      [((9 : Int), (⟨none, some 1⟩ : StrictEntry)), ((13 : Int), ⟨none, some 2⟩)]).isSome
      = true :=
  ⟨rfl, by decide, by decide, by decide, rfl⟩

/-- C6 (amended): `get_close_within_days` returns the close at the exact
target date when present; otherwise, for each offset `k = 1..maxDays` in
increasing order, it tries `date+k` then `date-k` and returns the first
date with data — so the match at minimal distance is chosen, with the
forward date preferred only on a distance tie (a strictly nearer backward
match beats a farther forward match); it returns the absent pair
`(none, none)` — never an exception — when the ticker is unknown or no
date within the window has data. -/
theorem c6_close_within_window_search_order
    (db : StrictDb) (ticker : String) (d : Int) (m : Nat) :
    (db.lookupTicker ticker = none → getCloseWithinDays db ticker d m = (none, none)) ∧
    (∀ tdata, db.lookupTicker ticker = some tdata →
      (∀ e, tdata.lookupDate d = some e →
        getCloseWithinDays db ticker d m = (e.close, some d)) ∧
      ((getCloseWithinDays db ticker d m).2 = none ↔
        ∀ off : Int, off.natAbs ≤ m → tdata.lookupDate (d + off) = none) ∧
      (∀ c res, getCloseWithinDays db ticker d m = (c, some res) →
        (res - d).natAbs ≤ m ∧
        (∃ e, tdata.lookupDate res = some e ∧ c = e.close) ∧
        (∀ d2 : Int, (d2 - d).natAbs < (res - d).natAbs → tdata.lookupDate d2 = none) ∧
        (tdata.lookupDate (d + ((res - d).natAbs : Int)) ≠ none →
          res = d + ((res - d).natAbs : Int)))) := by
  constructor
  · intro h
    unfold getCloseWithinDays
    rw [h]
  · intro tdata ht
    refine ⟨?_, ?_, ?_⟩
    · intro e he
      unfold getCloseWithinDays
      simp only [ht, he]
    · unfold getCloseWithinDays
      simp only [ht]
      cases hd : tdata.lookupDate d with
      | some e =>
        simp only [hd]
        constructor
        · intro h
          exact absurd h (by simp)
        · intro hall
          exact absurd (by simpa using hall 0 (by simp)) (by rw [hd]; simp)
      | none =>
        simp only [hd]
        rw [gcwdSearch_snd_none_iff]
        constructor
        · intro hall off hoff
          rcases eq_or_ne off 0 with rfl | hoff0
          · simpa using hd
          · have h1 : 1 ≤ off.natAbs := by
              rcases Nat.eq_zero_or_pos off.natAbs with h | h
              · exact absurd (Int.natAbs_eq_zero.mp h) hoff0
              · exact h
            have hjj := hall off.natAbs h1 (by omega)
            rcases Int.natAbs_eq off with heq | heq
            · rw [heq]
              exact hjj.1
            · rw [heq, ← sub_eq_add_neg]
              exact hjj.2
        · intro hall j hj1 hj2
          constructor
          · exact hall (j : Int) (by simp; omega)
          · rw [sub_eq_add_neg]
            exact hall (-(j : Int)) (by simp; omega)
    · intro c res hres
      unfold getCloseWithinDays at hres
      simp only [ht] at hres
      cases hd : tdata.lookupDate d with
      | some e =>
        simp only [hd, Prod.mk.injEq, Option.some.injEq] at hres
        obtain ⟨hc, hdres⟩ := hres
        subst hdres
        refine ⟨by simp, ⟨e, hd, hc.symm⟩, ?_, ?_⟩
        · intro d2 hd2
          simp at hd2
        · intro _
          simp
      | none =>
        simp only [hd] at hres
        obtain ⟨j, hj1, hj2, hdisj, hlook, hprefix⟩ := gcwdSearch_spec tdata d m 1 c res hres
        have hnat : (res - d).natAbs = j := by
          rcases hdisj with h | ⟨h, -⟩
          · rw [h]
            simp
          · rw [h]
            simp
        refine ⟨by omega, hlook, ?_, ?_⟩
        · intro d2 hd2
          rw [hnat] at hd2
          set j2 := (d2 - d).natAbs with hj2def
          have hd2eq : d2 = d + (j2 : Int) ∨ d2 = d - (j2 : Int) := by
            rcases Int.natAbs_eq (d2 - d) with h | h
            · left; omega
            · right; omega
          rcases Nat.eq_zero_or_pos j2 with hz | hpos
          · have hzz : d2 = d := by omega
            rw [hzz]
            exact hd
          · have hpre := hprefix j2 hpos (by omega)
            rcases hd2eq with h | h
            · rw [h]
              exact hpre.1
            · rw [h]
              exact hpre.2
        · intro hfwd
          rw [hnat] at hfwd ⊢
          rcases hdisj with h | ⟨h, hnone⟩
          · exact h
          · exact absurd hnone hfwd

/-- Witness for C6's amended claim at the counterexample store: the query at
date 10 with window 5 returns `(some 1, some 9)`; date 9 carries data, its
distance 1 is within the window, and every date strictly closer than
distance 1 (only date 10 itself) has no data. -/
theorem c6_close_within_window_search_order_witness :
    (StrictDb.lookupTicker
        [("X", [((9 : Int), ⟨none, some 1⟩), ((13 : Int), ⟨none, some 2⟩)])] "X"
      = some [((9 : Int), ⟨none, some 1⟩), ((13 : Int), ⟨none, some 2⟩)]) ∧
    (getCloseWithinDays [("X", [((9 : Int), ⟨none, some 1⟩), ((13 : Int), ⟨none, some 2⟩)])]
        "X" 10 5 = (some 1, some 9)) ∧
    (((9 : Int) - 10).natAbs ≤ 5 ∧
      (∃ e, TickerData.lookupDate
          [((9 : Int), ⟨none, some 1⟩), ((13 : Int), ⟨none, some 2⟩)] 9 = some e ∧
        (some 1 : Option ℚ) = e.close) ∧
      (∀ d2 : Int, (d2 - 10).natAbs < ((9 : Int) - 10).natAbs →
        TickerData.lookupDate
          [((9 : Int), ⟨none, some 1⟩), ((13 : Int), ⟨none, some 2⟩)] d2 = none) ∧
      (TickerData.lookupDate [((9 : Int), ⟨none, some 1⟩), ((13 : Int), ⟨none, some 2⟩)]
          ((10 : Int) + ((((9 : Int) - 10).natAbs : Int))) ≠ none →
        (9 : Int) = 10 + ((((9 : Int) - 10).natAbs : Int)))) :=
  ⟨rfl, rfl,
    ((c6_close_within_window_search_order
        [("X", [((9 : Int), ⟨none, some 1⟩), ((13 : Int), ⟨none, some 2⟩)])] "X" 10 5).2
      [((9 : Int), ⟨none, some 1⟩), ((13 : Int), ⟨none, some 2⟩)] rfl).2.2 (some 1) 9 rfl⟩

theorem coverage_below_threshold_insufficient
    (db : StrictDb) (ticker : String) (tdata : TickerData) (startDate endDate : Int)
    (ht : db.lookupTicker ticker = some tdata)
    (hwin : startDate < endDate)
    (hcov : ((countDaysWithData tdata startDate endDate : ℚ)) /
        (((endDate - startDate : Int) : ℚ) * 5 / 7) < 3/10) :
    hasSufficientPriceData db ticker startDate endDate (3/10) = false := by
  unfold hasSufficientPriceData
  simp only [ht]
  rw [if_neg (by omega : ¬ (endDate - startDate ≤ 0))]
  rw [decide_eq_false_iff_not, not_le]
  have hexp : (0:ℚ) < ((endDate - startDate : Int) : ℚ) * 5 / 7 := by
    have h0 : (0:ℚ) < ((endDate - startDate : Int) : ℚ) := by
      rw [Int.cast_pos]
      omega
    positivity
  calc (countDaysWithData tdata startDate endDate : ℚ) /
        max (((endDate - startDate : Int) : ℚ) * 5 / 7) 1
      ≤ (countDaysWithData tdata startDate endDate : ℚ) /
        (((endDate - startDate : Int) : ℚ) * 5 / 7) :=
        div_le_div_of_nonneg_left (by positivity) hexp (le_max_left _ _)
    _ < 3/10 := hcov

theorem processSignal_coverage_drop
    (db : StrictDb) (holdingDays : Int) (stopLossPct : ℚ) (s : Signal) (ed0 : Int) (ep : ℚ)
    (aed : Int) (lp : ℚ) (latestDate : Int)
    (hticker : s.ticker ≠ "")
    (heff : s.effEntryDate = some ed0)
    (hgc : getCloseWithinDays db s.ticker ed0 5 = (some ep, some aed))
    (hlat : getLatestPrice db s.ticker = some (lp, latestDate))
    (hins : hasSufficientPriceData db s.ticker aed (min (aed + holdingDays) latestDate) (3/10)
      = false) :
    processSignal db holdingDays stopLossPct s =
      .droppedCoverage s.ticker aed (aed + holdingDays) (min (aed + holdingDays) latestDate)
        "insufficient_coverage_in_period" := by
  unfold processSignal
  rw [if_neg hticker]
  simp only [heff, hgc, hlat, hins]
  simp

/-- C8: in the strict analyzer, a signal with a usable entry price (found
within 5 days of the effective entry date) whose data coverage over the
window from the (adjusted) entry date to the effective end date — days with
data divided by the expected trading days, 5/7 of the calendar days — is
below the 0.3 threshold, is dropped from the statistics as a data-gap drop
with reason `insufficient_coverage_in_period`; the drop never aborts the
run (the per-signal outcome is total), and the run's reported total drop
count is the no-entry-price drop count plus the data-gap drop count. -/
theorem c8_data_gap_drop
    (db : StrictDb) (holdingDays : Int) (stopLossPct : ℚ) (minScore maxScore : Int)
    (signals : List Signal) (s : Signal) (tdata : TickerData) (ed0 : Int) (ep : ℚ)
    (aed : Int) (lp : ℚ) (latestDate : Int)
    (hticker : s.ticker ≠ "")
    (heff : s.effEntryDate = some ed0)
    (hgc : getCloseWithinDays db s.ticker ed0 5 = (some ep, some aed))
    (hlat : getLatestPrice db s.ticker = some (lp, latestDate))
    (ht : db.lookupTicker s.ticker = some tdata)
    (hwin : aed < min (aed + holdingDays) latestDate)
    (hcov : ((countDaysWithData tdata aed (min (aed + holdingDays) latestDate) : ℚ)) /
        (((min (aed + holdingDays) latestDate - aed : Int) : ℚ) * 5 / 7) < 3/10) :
    processSignal db holdingDays stopLossPct s =
      .droppedCoverage s.ticker aed (aed + holdingDays) (min (aed + holdingDays) latestDate)
        "insufficient_coverage_in_period" ∧
    (analyzeSignalsStrict db holdingDays stopLossPct minScore maxScore signals).droppedTotal =
      (analyzeSignalsStrict db holdingDays stopLossPct minScore maxScore
        signals).droppedNoEntry.length +
      (analyzeSignalsStrict db holdingDays stopLossPct minScore maxScore
        signals).droppedCoverage.length :=
  ⟨processSignal_coverage_drop db holdingDays stopLossPct s ed0 ep aed lp latestDate
      hticker heff hgc hlat
      (coverage_below_threshold_insufficient db s.ticker tdata aed
        (min (aed + holdingDays) latestDate) ht hwin hcov),
    rfl⟩

/-- Witness for C8: ticker with data only on days 0 and 10 over a 10-day
holding window (coverage 2 / (10·5/7) = 0.28 < 0.3) — the signal is dropped
into the data-gap bucket with its reason recorded, and the run's total drop
count is the sum of the two buckets. -/
theorem c8_data_gap_drop_witness :
    (processSignal
        [("X", [((0 : Int), ⟨none, some 50⟩), ((10 : Int), ⟨none, some 60⟩)])] 10 (1/4)
        { ticker := "X", signalDate := some 0, entryDate := some 0, entryPrice := 50,
          score := 5 } =
      .droppedCoverage "X" 0 (0 + 10) (min ((0 : Int) + 10) 10)
        "insufficient_coverage_in_period") ∧
    ((analyzeSignalsStrict
        [("X", [((0 : Int), ⟨none, some 50⟩), ((10 : Int), ⟨none, some 60⟩)])] 10 (1/4) 5 7
        [{ ticker := "X", signalDate := some 0, entryDate := some 0, entryPrice := 50,
           score := 5 }]).droppedTotal =
      (analyzeSignalsStrict
        [("X", [((0 : Int), ⟨none, some 50⟩), ((10 : Int), ⟨none, some 60⟩)])] 10 (1/4) 5 7
        [{ ticker := "X", signalDate := some 0, entryDate := some 0, entryPrice := 50,
           score := 5 }]).droppedNoEntry.length +
      (analyzeSignalsStrict
        [("X", [((0 : Int), ⟨none, some 50⟩), ((10 : Int), ⟨none, some 60⟩)])] 10 (1/4) 5 7
        [{ ticker := "X", signalDate := some 0, entryDate := some 0, entryPrice := 50,
           score := 5 }]).droppedCoverage.length) :=
  c8_data_gap_drop
    [("X", [((0 : Int), ⟨none, some 50⟩), ((10 : Int), ⟨none, some 60⟩)])] 10 (1/4) 5 7
    [{ ticker := "X", signalDate := some 0, entryDate := some 0, entryPrice := 50,
       score := 5 }]
    { ticker := "X", signalDate := some 0, entryDate := some 0, entryPrice := 50, score := 5 }
    [((0 : Int), ⟨none, some 50⟩), ((10 : Int), ⟨none, some 60⟩)] 0 50 0 60 10
    (by decide) rfl rfl rfl rfl (by decide)
    (by
      have h2 : countDaysWithData [((0 : Int), ⟨none, some 50⟩), ((10 : Int), ⟨none, some 60⟩)]
          0 (min ((0 : Int) + 10) 10) = 2 := rfl
      rw [h2]
      norm_num)
